import Mathlib

/-!
# Verification of the github-scrapper repository scanning & synchronization pipeline

Shallow embedding of the Rust sources (`src/main.rs`, `src/github.rs`,
`src/helper.rs`, `src/types.rs`, `src/elk.rs`, `src/sheets.rs`) in Lean 4.

Network effects are abstracted as oracle functions threaded through an `Env`
structure: each oracle returns exactly the data the corresponding Rust call
site extracts from its HTTP response (`Option` when the call site collapses
transport/parse failures into `None` via `.ok()` chains). The pure control
flow around those calls — URL classification, keyword counting, record
construction, deduplication and the per-row sink writes of the two loops in
`main` — is translated definition-for-definition from the source.
-/

set_option autoImplicit false

/-- Splits a character list at the first occurrence of `target`, returning the
part before it and the part after it; `none` when `target` does not occur. -/
def splitAtChar (target : Char) : List Char → Option (List Char × List Char)
  | [] => none
  | c :: rest =>
    if c = target then some ([], rest)
    else (splitAtChar target rest).map (fun p => (c :: p.1, p.2))

/-- Splits a character list on `/` into segments (the way the `path_segments` method of `url::Url` splits the serialized path after its leading slash);
the empty list yields the single empty segment. -/
def splitOnSlash : List Char → List String
  | [] => [""]
  | c :: rest =>
    if c = '/' then "" :: splitOnSlash rest
    else
      match splitOnSlash rest with
      | s :: ss => (String.mk (c :: s.data)) :: ss
      | [] => [String.mk [c]]

/-- Valid characters of a URL scheme after its first letter. -/
def isSchemeChar (c : Char) : Bool :=
  c.isAlphanum || c = '+' || c = '-' || c = '.'

/-- Result of `url::Url::parse` followed by `path_segments()`:
`failed` when `Url::parse` returns `Err`, `noSegments` when the URL parses
but is cannot-be-a-base (`path_segments()` is `None`, e.g. `mailto:` URLs),
`segments` otherwise. -/
inductive UrlParseResult where
  | failed
  | noSegments
  | segments (segs : List String)
deriving DecidableEq

/-- Models `url::Url::parse` composed with `path_segments()` for the URL
shapes this program meets: an absolute URL `scheme://host/path` with a
non-empty host and no userinfo/port, query and fragment stripped, the path
split on `/`. A string without a valid `scheme:` head fails to parse; a
parsed URL whose scheme is not followed by `//` is cannot-be-a-base. An
authority with no path at all serializes as path `/`, one empty segment. -/
def rust_url_parse (s : String) : UrlParseResult :=
  match splitAtChar ':' s.data with
  | none => .failed
  | some (sch, rest) =>
    if sch.isEmpty then .failed
    else if !(sch.headD ' ').isAlpha then .failed
    else if !sch.all isSchemeChar then .failed
    else
      match rest with
      | '/' :: '/' :: rest2 =>
        let host := rest2.takeWhile (fun c => !(c = '/' || c = '?' || c = '#'))
        if host.isEmpty then .failed
        else
          let after := rest2.drop host.length
          let pathPart := after.takeWhile (fun c => !(c = '?' || c = '#'))
          match pathPart with
          | '/' :: p => .segments (splitOnSlash p)
          | _ => .segments [""]
      | _ => .noSegments

/-- `GitHubUrlType` from `src/github.rs` lines 36-40. -/
inductive GitHubUrlType where
  | User (name : String)
  | Repo (owner repo_name : String)
  | Invalid
deriving DecidableEq

/-- `classify_github_url` from `src/github.rs` lines 60-78: on parse failure
`Invalid`; otherwise `path_segments().map(collect).unwrap_or_default()` (so a
cannot-be-a-base URL gives the empty segment vector) matched against one
segment (`User`), two segments (`Repo`), anything else `Invalid`. -/
def classify_github_url (url : String) : GitHubUrlType :=
  match rust_url_parse url with
  | .failed => .Invalid
  | .noSegments => .Invalid
  | .segments segs =>
    match segs with
    | [owner] => .User owner
    | [owner, repo_name] => .Repo owner repo_name
    | _ => .Invalid

/-- `parse_github_url` from `src/github.rs` lines 84-91:
`Url::parse(url).ok()?.path_segments()?.collect().get(0..2)` — the first two
path segments when there are at least two, `none` otherwise. -/
def parse_github_url (url : String) : Option (String × String) :=
  match rust_url_parse url with
  | .segments (a :: b :: _) => some (a, b)
  | _ => none

/-- `get_github_repo` from `src/github.rs` lines 80-82. -/
def get_github_repo (url : String) : Option String :=
  (parse_github_url url).map
    (fun p => "https://github.com/" ++ p.1 ++ "/" ++ p.2)

/-- `KeywordResult` from `src/types.rs` lines 5-9. -/
structure KeywordResult where
  count : Nat
  files : List String
deriving DecidableEq

/-- `RepoMap` from `src/types.rs` line 10. A `HashMap<String, KeywordResult>`
is modelled as an association list whose keys are unique (the only map
producers, `or_insert` accumulation and JSON objects, keep keys unique). -/
abbrev RepoMap := List (String × KeywordResult)

/-- `GitHubUpdateData` from `src/types.rs` lines 12-36, fields in source
declaration order. `Option String` fields mirror the `Option<String>`
optional enrichment fields. -/
structure GitHubUpdateData where
  commit_sha : String
  email : String
  keyword_counts : RepoMap
  keyword_matches : String
  commit_date : String
  name : String
  owner : String
  repo_name : String
  snapshot_url : String
  origin : String
  file_types : String
  files_processed : String
  location : Option String
  presentation_link : Option String
  technical_link : Option String
  tracks : Option String
  contact : Option String
  website_link : Option String
  social_link : Option String
  wallet : Option String
deriving DecidableEq

/-- `GitHubUpdateData::default()`: every string empty, the map empty, every
optional `None`. -/
def defaultUpdateData : GitHubUpdateData :=
  ⟨"", "", [], "", "", "", "", "", "", "", "", "",
   none, none, none, none, none, none, none, none⟩

/-- The field names of `GitHubUpdateData`, as an enumeration. `serde_json`
serializes the struct to an object with exactly these keys. -/
inductive FieldName where
  | commit_sha | email | keyword_counts | keyword_matches | commit_date
  | name | owner | repo_name | snapshot_url | origin | file_types
  | files_processed | location | presentation_link | technical_link
  | tracks | contact | website_link | social_link | wallet
deriving DecidableEq

/-- All fields of `GitHubUpdateData`, in declaration order. -/
def allFieldNames : List FieldName :=
  [.commit_sha, .email, .keyword_counts, .keyword_matches, .commit_date,
   .name, .owner, .repo_name, .snapshot_url, .origin, .file_types,
   .files_processed, .location, .presentation_link, .technical_link,
   .tracks, .contact, .website_link, .social_link, .wallet]

/-- The `serde_json::Value` shapes a `GitHubUpdateData` field can serialize
to: a string, `null` (an unset optional), or an object (the keyword map). -/
inductive JValue where
  | str (s : String)
  | null
  | obj (m : RepoMap)
deriving DecidableEq

/-- The `serde_json` projection of one field of a `GitHubUpdateData`:
string fields become `Value::String`, `None` becomes `Value::Null`,
`Some s` becomes `Value::String s`, and the keyword map becomes
`Value::Object`. -/
def getJ (r : GitHubUpdateData) : FieldName → JValue
  | .commit_sha => .str r.commit_sha
  | .email => .str r.email
  | .keyword_counts => .obj r.keyword_counts
  | .keyword_matches => .str r.keyword_matches
  | .commit_date => .str r.commit_date
  | .name => .str r.name
  | .owner => .str r.owner
  | .repo_name => .str r.repo_name
  | .snapshot_url => .str r.snapshot_url
  | .origin => .str r.origin
  | .file_types => .str r.file_types
  | .files_processed => .str r.files_processed
  | .location => match r.location with | none => .null | some s => .str s
  | .presentation_link => match r.presentation_link with | none => .null | some s => .str s
  | .technical_link => match r.technical_link with | none => .null | some s => .str s
  | .tracks => match r.tracks with | none => .null | some s => .str s
  | .contact => match r.contact with | none => .null | some s => .str s
  | .website_link => match r.website_link with | none => .null | some s => .str s
  | .social_link => match r.social_link with | none => .null | some s => .str s
  | .wallet => match r.wallet with | none => .null | some s => .str s

/-- Writing `Value::String v` into one field of the serialized object and
deserializing back (`map.insert(field, Value::String(value))` followed by
`from_value`): a string field receives `v`, an optional field receives
`Some v`. The `keyword_counts` case would make `from_value` fail (the code
would panic on `unwrap`), but it is unreachable: the insertion is guarded by
`needs_update`, which is always false for an object value; the model keeps
the record unchanged there. -/
def setStr (r : GitHubUpdateData) : FieldName → String → GitHubUpdateData
  | .commit_sha, v => { r with commit_sha := v }
  | .email, v => { r with email := v }
  | .keyword_counts, _ => r
  | .keyword_matches, v => { r with keyword_matches := v }
  | .commit_date, v => { r with commit_date := v }
  | .name, v => { r with name := v }
  | .owner, v => { r with owner := v }
  | .repo_name, v => { r with repo_name := v }
  | .snapshot_url, v => { r with snapshot_url := v }
  | .origin, v => { r with origin := v }
  | .file_types, v => { r with file_types := v }
  | .files_processed, v => { r with files_processed := v }
  | .location, v => { r with location := some v }
  | .presentation_link, v => { r with presentation_link := some v }
  | .technical_link, v => { r with technical_link := some v }
  | .tracks, v => { r with tracks := some v }
  | .contact, v => { r with contact := some v }
  | .website_link, v => { r with website_link := some v }
  | .social_link, v => { r with social_link := some v }
  | .wallet, v => { r with wallet := some v }

/-- The struct field named by a JSON key, `none` for keys that are not
fields of `GitHubUpdateData`. -/
def fieldNameOf (f : String) : Option FieldName :=
  if f = "commit_sha" then some .commit_sha
  else if f = "email" then some .email
  else if f = "keyword_counts" then some .keyword_counts
  else if f = "keyword_matches" then some .keyword_matches
  else if f = "commit_date" then some .commit_date
  else if f = "name" then some .name
  else if f = "owner" then some .owner
  else if f = "repo_name" then some .repo_name
  else if f = "snapshot_url" then some .snapshot_url
  else if f = "origin" then some .origin
  else if f = "file_types" then some .file_types
  else if f = "files_processed" then some .files_processed
  else if f = "location" then some .location
  else if f = "presentation_link" then some .presentation_link
  else if f = "technical_link" then some .technical_link
  else if f = "tracks" then some .tracks
  else if f = "contact" then some .contact
  else if f = "website_link" then some .website_link
  else if f = "social_link" then some .social_link
  else if f = "wallet" then some .wallet
  else none

/-- The `match` arm of `GitHubUpdateData::is_empty` (`src/types.rs` lines
42-48) applied to one serialized value: a string is empty iff it is `""`,
`Null` is empty, an object is empty iff it has no keys. -/
def jEmpty : JValue → Bool
  | .str s => s = ""
  | .null => true
  | .obj m => m.isEmpty

/-- `GitHubUpdateData::is_empty` from `src/types.rs` lines 39-51: serialize
the record to a JSON object and require every field value to be empty under
`jEmpty`. -/
def GitHubUpdateData.is_empty (r : GitHubUpdateData) : Bool :=
  allFieldNames.all (fun fn => jEmpty (getJ r fn))

/-- The `needs_update` check of `add_fields_if_exist` (`src/types.rs` lines
63-68): an empty string or `Null` needs updating, anything else (including
the keyword-map object) does not. The `None` (absent key) arm of the source
match cannot arise for a field of the struct; absent keys are handled in
`updateField`. -/
def needsUpdate : JValue → Bool
  | .str s => s = ""
  | .null => true
  | .obj _ => false

/-- `columns.get(field)` on the `HashMap<String, Vec<String>>` of external
column data, modelled as an association-list lookup. -/
def lookupCol (cols : List (String × List String)) (f : String) : Option (List String) :=
  (cols.find? (fun p => p.1 = f)).map Prod.snd

/-- One iteration of the field loop of `add_fields_if_exist` (`src/types.rs`
lines 62-79). A key that is not a struct field would be inserted into the
JSON object and then dropped again by `from_value` (serde ignores unknown
keys), a net no-op, modelled by the `none` arm. -/
def updateField (cols : List (String × List String)) (row : Nat)
    (r : GitHubUpdateData) (f : String) : GitHubUpdateData :=
  match fieldNameOf f with
  | none => r
  | some fn =>
    if needsUpdate (getJ r fn) then
      match lookupCol cols f with
      | some values =>
        match values.get? row with
        | some v => setStr r fn v
        | none => r
      | none => r
    else r

/-- `GitHubUpdateData::add_fields_if_exist` from `src/types.rs` lines 53-84:
serialize, backfill each listed field that is currently an empty string or
null from the column of the same name at `row_index`, deserialize back. -/
def GitHubUpdateData.add_fields_if_exist (r : GitHubUpdateData)
    (cols : List (String × List String)) (fields : List String)
    (row : Nat) : GitHubUpdateData :=
  fields.foldl (updateField cols row) r

/-- Models `str::to_lowercase` for text whose characters lower-case
one-to-one (in particular all ASCII text; every configured keyword and every
counterexample below is ASCII). -/
def rustToLower (s : String) : String :=
  String.mk (s.data.map Char.toLower)

/-- Core of `str::matches(pat).count()` for a non-empty needle: scan left to
right; at a match, count it and resume after its end (non-overlapping); an
empty needle is counted as zero occurrences (never used: the keyword
vocabulary has no empty string). The `fuel` argument only bounds the
recursion depth; it is instantiated with the text length, which the scan
never exceeds since every step consumes at least one character. -/
def countMatchesFuel (pat : List Char) : Nat → List Char → Nat
  | 0, _ => 0
  | _ + 1, [] => 0
  | fuel + 1, c :: rest =>
    if !pat.isEmpty && pat.isPrefixOf (c :: rest) then
      1 + countMatchesFuel pat fuel (rest.drop (pat.length - 1))
    else
      countMatchesFuel pat fuel rest

/-- `str::matches(pat).count()` on character lists. -/
def countMatchesList (pat text : List Char) : Nat :=
  countMatchesFuel pat text.length text

/-- `text.matches(kw).count()`: the number of non-overlapping occurrences of
`pat` in `text`. -/
def countMatchesStr (text pat : String) : Nat :=
  countMatchesList pat.data text.data

/-- The per-file count the scanner computes for one keyword
(`src/github.rs` lines 158-161): the text is lower-cased, the keyword is
matched verbatim. -/
def keywordCount (text kw : String) : Nat :=
  countMatchesStr (rustToLower text) kw

/-- Modelled from the spec: "count the number of non-overlapping substring
occurrences" with "keyword matching is case-insensitive" — non-overlapping
occurrences where both the text and the keyword are compared lower-cased.
Used only to compare the count computed by the scanner against the wording of the spec. -/
def countCaseInsensitive (text kw : String) : Nat :=
  countMatchesStr (rustToLower text) (rustToLower kw)

/-- The number of distinct keys of a keyword map — the size of the
`serde_json::Map` built by inserting every entry of the map
(`src/helper.rs` lines 22-34). -/
def distinctKeyCount (m : RepoMap) : Nat :=
  (m.map Prod.fst).dedup.length

/-- Modelled from the spec: "`keywordMatches` = count of distinct keywords
with ≥1 match". Used only to compare `format_for_mapping` against the wording of the spec. -/
def nonzeroKeyCount (m : RepoMap) : Nat :=
  ((m.filter (fun p => p.2.count ≠ 0)).map Prod.fst).dedup.length

/-- `format_for_mapping` from `src/helper.rs` lines 10-59, parameters in
source order: `keyword_matches` is the length of the serialized keyword-map
object, `snapshot_url` is the commit permalink, `origin` defaults to
"unknown", and `files_processed` is rendered as a decimal string. -/
def format_for_mapping (owner repo_name commit_sha commit_date : String)
    (keyword_counts : RepoMap) (email name : String)
    (origin : Option String) (file_types : String)
    (files_processed : Nat) : GitHubUpdateData :=
  { commit_sha := commit_sha
    email := email
    keyword_counts := keyword_counts
    keyword_matches := toString (distinctKeyCount keyword_counts)
    commit_date := commit_date
    name := name
    owner := owner
    repo_name := repo_name
    snapshot_url :=
      "https://github.com/" ++ owner ++ "/" ++ repo_name ++ "/tree/" ++ commit_sha
    origin := origin.getD "unknown"
    file_types := file_types
    files_processed := toString files_processed
    location := none
    presentation_link := none
    technical_link := none
    tracks := none
    contact := none
    website_link := none
    social_link := none
    wallet := none }

/-- Decimal digits to their value; `none` when the list is empty or any
character is not an ASCII digit (the Rust `str::parse` rejects such input). -/
def parseDigits (l : List Char) : Option Nat :=
  if l.isEmpty then none
  else if l.all Char.isDigit then
    some (l.foldl (fun a c => a * 10 + (c.toNat - 48)) 0)
  else none

/-- The Rust integer `FromStr` shape: an optional sign followed by one or more
decimal digits, nothing else. -/
def parseIntStr (s : String) : Option Int :=
  match s.data with
  | '+' :: rest => (parseDigits rest).map Int.ofNat
  | '-' :: rest => (parseDigits rest).map (fun n => -(Int.ofNat n))
  | l => (parseDigits l).map Int.ofNat

/-- `str::parse::<i32>()`: a sign-and-digits literal within `i32` bounds. -/
def parse_i32 (s : String) : Option Int :=
  (parseIntStr s).bind
    (fun v => if -(2 ^ 31) ≤ v ∧ v ≤ 2 ^ 31 - 1 then some v else none)

/-- `str::parse::<i64>()`: a sign-and-digits literal within `i64` bounds. -/
def parse_i64 (s : String) : Option Int :=
  (parseIntStr s).bind
    (fun v => if -(2 ^ 63) ≤ v ∧ v ≤ 2 ^ 63 - 1 then some v else none)

/-- `check_api_request_limit` from `src/helper.rs` lines 61-92, as the total
number of seconds the call suspends: `remaining` and `reset` are the
`X-RateLimit-Remaining` and `X-RateLimit-Reset` header values (`none` when
the header is absent), `now` is `Utc::now().timestamp()`. A missing
`Remaining` header suspends nothing; a present one is parsed with
`unwrap_or(0)`; when the result is ≤ 1 the reset timestamp (also
`unwrap_or(0)`) determines `wait = reset - now`, slept only when positive
(in chunks of at most 60 seconds, totalling `wait`). -/
def check_api_request_limit_wait (remaining reset : Option String)
    (now : Int) : Int :=
  match remaining with
  | none => 0
  | some r =>
    let rem := (parse_i32 r).getD 0
    if rem ≤ 1 then
      match reset with
      | none => 0
      | some s =>
        let ts := (parse_i64 s).getD 0
        let wait := ts - now
        if wait > 0 then wait else 0
    else 0

/-- `TreeItem` from `src/github.rs` lines 18-23. -/
structure TreeItem where
  path : String
  item_type : String
deriving DecidableEq

/-- The accumulation step of `process_repo` for one keyword in one file
(`src/github.rs` lines 160-173): `results.entry(kw).or_insert(..)` then
`entry.count += count; entry.files.push(permalink)`. -/
def insertResult : RepoMap → String → Nat → String → RepoMap
  | [], kw, c, url => [(kw, ⟨c, [url]⟩)]
  | (k, r) :: rest, kw, c, url =>
    if k = kw then (k, ⟨r.count + c, r.files ++ [url]⟩) :: rest
    else (k, r) :: insertResult rest kw c url

/-- The inner keyword loop of `process_repo` over one scanned file:
`lowerText` is the already lower-cased decoded content, `respPath` the path
field of the content response (used for the permalink). Keywords with a zero
count leave the map unchanged. -/
def accumKeywords (owner repo respPath lowerText : String)
    (m : RepoMap) (kw : String) : RepoMap :=
  let c := countMatchesStr lowerText kw
  if 0 < c then
    insertResult m kw c
      ("https://github.com/" ++ owner ++ "/" ++ repo ++ "/blob/HEAD/" ++ respPath)
  else m

/-- The per-file loop of `process_repo` (`src/github.rs` lines 139-174).
`fetch path` abstracts the contents request for `path` together with the
JSON parse, newline strip, base64 decode and lossy UTF-8 conversion of
lines 145-158, returning the decoded text and the `path` field of the response;
`none` when any of those steps fails, which aborts the whole scan (`.ok()?`).
The second component is the list of paths for which a content fetch was
issued, in order. -/
def scanFiles (owner repo : String) (fetch : String → Option (String × String))
    (keywords : List String) : List TreeItem → RepoMap → Option RepoMap × List String
  | [], acc => (some acc, [])
  | item :: rest, acc =>
    match fetch item.path with
    | none => (none, [item.path])
    | some (text, respPath) =>
      let s := scanFiles owner repo fetch keywords rest
        (keywords.foldl (accumKeywords owner repo respPath (rustToLower text)) acc)
      (s.1, item.path :: s.2)

/-- `str::ends_with`, on the underlying character lists. -/
def rustEndsWith (s suffix : String) : Bool :=
  suffix.data.isSuffixOf s.data

/-- The blob filter and cap of `process_repo` (`src/github.rs` lines
122-127): keep tree entries of type `blob` whose path ends with an allowed
extension, in tree order, truncated to the first `limit` entries. -/
def filteredFiles (t : List TreeItem) (allowed : List String) (limit : Nat) : List TreeItem :=
  (t.filter (fun i => i.item_type = "blob" && allowed.any (fun e => rustEndsWith i.path e))).take limit

/-- `process_repo` from `src/github.rs` lines 93-177. `tree` abstracts the
recursive tree request with its JSON parse (`none` aborts the scan). On
success returns the keyword map, the joined extension label and
`files_processed` — the length of the capped filtered list, computed before
the scan loop. Also returns the trace of content-fetched paths. -/
def process_repo (owner repo : String) (tree : Option (List TreeItem))
    (fetch : String → Option (String × String)) (keywords allowed : List String)
    (limit : Nat) : Option (RepoMap × String × Nat) × List String :=
  match tree with
  | none => (none, [])
  | some t =>
    let files := filteredFiles t allowed limit
    let files_processed := files.length
    let s := scanFiles owner repo fetch keywords files []
    match s.1 with
    | some m => (some (m, String.intercalate ", " allowed, files_processed), s.2)
    | none => (none, s.2)

/-- The oracle environment of one run: each field returns what the
corresponding network call site in the source extracts from its response.
`commitInfo` abstracts `get_last_commit_info` (`src/github.rs` lines
179-230, sha/date/email/name of the tip of the default branch, `none` on any
failure), `treeOf` and `fetchText` the two request sites inside
`process_repo`, `docExists` the `es_document_exists` check, `userRepos`
the paginated `fetch_user_repos` listing, `columns` the cleaned spreadsheet
columns read at startup, and `nowStr` the `chrono::Utc::now().to_rfc3339()`
fallback timestamp. -/
structure Env where
  commitInfo : String → String → Option (String × String × String × String)
  treeOf : String → String → Option (List TreeItem)
  fetchText : String → String → String → Option (String × String)
  docExists : String → String → Bool
  userRepos : String → List String
  columns : List (String × List String)
  nowStr : String

/-- The parse-success branch of `handle_github_repo_url` (`src/github.rs`
lines 292-334): commit provenance with the synthesized fallback
`("", now, "", "")`, then `process_repo`, then `format_for_mapping`; a scan
failure yields the default record and an error message. -/
def handleParsed (env : Env) (owner repo : String) (keywords allowed : List String)
    (limit : Nat) (origin : String) : GitHubUpdateData × Option String :=
  let ci := (env.commitInfo owner repo).getD ("", env.nowStr, "", "")
  match (process_repo owner repo (env.treeOf owner repo) (env.fetchText owner repo)
      keywords allowed limit).1 with
  | some (m, file_types, files_processed) =>
    (format_for_mapping owner repo ci.1 ci.2.1 m ci.2.2.1 ci.2.2.2
      (some origin) file_types files_processed, none)
  | none => (defaultUpdateData, some "Failed to process repo data")

/-- `handle_github_repo_url` from `src/github.rs` lines 283-341. -/
def handle_github_repo_url (env : Env) (repo_url : String)
    (keywords allowed : List String) (limit : Nat) (origin : String) :
    GitHubUpdateData × Option String :=
  match parse_github_url repo_url with
  | some (owner, repo) => handleParsed env owner repo keywords allowed limit origin
  | none => (defaultUpdateData, some "Invalid GitHub URL")

/-- `KEYWORDS` from `src/main.rs` lines 54-63. -/
def KEYWORDS : List String :=
  ["ephemeral-rollups-sdk", "#[ephemeral]", "#[commit]", "#[delegate]",
   "delegate_account", "undelegate_account", "commit_accounts",
   "commit_and_undelegate_accounts"]

/-- `ALLOWED_EXTENSIONS` from `src/main.rs` line 53. -/
def ALLOWED_EXTENSIONS : List String :=
  [".toml", ".json", ".rs", ".ts"]

/-- The enrichment field list `fields` from `src/main.rs` lines 76-84. -/
def mainFields : List String :=
  ["snapshot_url", "presentation_link", "technical_link", "files_processed",
   "location", "tracks", "contact"]

/-- The `Config` fields of `src/main.rs` lines 26-51 that the loops use. -/
structure Config where
  spreadsheet_id : String
  read_sheet_name : String
  write_sheet_name : String
  update_data_col : String
  user_write_sheet : String
  user_write_col : String
  search_update_data_col : String
  search_write_sheet_name : String

/-- The concrete configuration value constructed in `main`. -/
def mainConfig : Config :=
  { spreadsheet_id := "1aYacUptAwX2bqbvy9uZFdzcVjdTB7RXmjqLo851NTxs"
    read_sheet_name := "Cypherpunk"
    write_sheet_name := "Cypherpunk"
    update_data_col := "U"
    user_write_sheet := "User"
    user_write_col := "AA"
    search_update_data_col := "A"
    search_write_sheet_name := "Search" }

/-- `handle_github_repo_url` as `main` invokes it: with `KEYWORDS`,
`ALLOWED_EXTENSIONS`, a file limit of 100 and the read sheet name as the
origin tag. -/
def handleMain (env : Env) (cfg : Config) (url : String) :
    GitHubUpdateData × Option String :=
  handle_github_repo_url env url KEYWORDS ALLOWED_EXTENSIONS 100 cfg.read_sheet_name

/-- One observable sink interaction of a run: an existence query against
the index sink, an ingest of a record to the index sink, or one of the
three spreadsheet writes `main` performs (a serialized-record row, the
search-loop row that also carries the input URL, the user/org marker row,
or an error cell). -/
inductive SinkEvent where
  | existsQuery (esIndex docId : String)
  | ingest (record : GitHubUpdateData)
  | writeDataRow (sheet col : String) (row : Nat) (record : GitHubUpdateData)
  | writeSearchRow (sheet col : String) (row : Nat) (url : String) (record : GitHubUpdateData)
  | writeUserRow (sheet col : String) (row : Nat) (owner origin : String)
  | writeErrorCell (sheet col : String) (row : Nat) (msg : String)
deriving DecidableEq

/-- The body of the inner repository loop of the user/org branch
(`src/main.rs` lines 199-269), for one repository URL of the enumerated
user: skip unless the record has `keyword_matches == "0"` and is non-empty
(the inverted filter of line 212); otherwise enrich and ingest the
(non-empty) record, write the user marker row, then either the error cell
or the serialized-record row — all at the same `row_reading`. -/
def userRepoStep (env : Env) (cfg : Config) (owner : String) (row : Nat)
    (rurl : String) : List SinkEvent :=
  let h := handleMain env cfg rurl
  let ud := h.1
  if ud.keyword_matches ≠ "0" ∨ ud.is_empty then []
  else
    let p :=
      if !ud.is_empty then
        let m := ud.add_fields_if_exist env.columns mainFields row
        ([SinkEvent.ingest m], m)
      else ([], ud)
    p.1 ++ [SinkEvent.writeUserRow cfg.write_sheet_name cfg.user_write_col row
             owner cfg.read_sheet_name]
      ++ (match h.2 with
          | some e => [SinkEvent.writeErrorCell cfg.write_sheet_name
                        cfg.update_data_col row ("❌ Error: " ++ e)]
          | none => [SinkEvent.writeDataRow cfg.write_sheet_name
                      cfg.update_data_col row p.2])

/-- The inner repository loop of the user/org branch, over the enumerated
repository URLs in order. -/
def userRepoEvents (env : Env) (cfg : Config) (owner : String) (row : Nat) :
    List String → List SinkEvent
  | [] => []
  | rurl :: rest =>
    userRepoStep env cfg owner row rurl ++ userRepoEvents env cfg owner row rest

/-- One iteration of the spreadsheet-driven loop of `main` (`src/main.rs`
lines 187-341) at row index `row` (`row_reading`): classify the input; a
user/org expands through the inner repository loop; a repository is rebuilt
as a canonical URL, processed, ingested when non-empty, and written as a
row or an error cell; an invalid input only logs. Every branch then
increments `row_reading` by one, so the events of the iteration are returned
alone and the caller advances the row. -/
def sheetStep (env : Env) (cfg : Config) (input : String) (row : Nat) :
    List SinkEvent :=
  match classify_github_url input with
  | .User owner => userRepoEvents env cfg owner row (env.userRepos owner)
  | .Repo owner repo_name =>
    let rurl := "https://github.com/" ++ owner ++ "/" ++ repo_name
    let h := handleMain env cfg rurl
    let ud := h.1
    let p :=
      if !ud.is_empty then
        let m := ud.add_fields_if_exist env.columns mainFields row
        ([SinkEvent.ingest m], m)
      else ([], ud)
    p.1 ++ (match h.2 with
            | some e => [SinkEvent.writeErrorCell cfg.write_sheet_name
                          cfg.update_data_col row ("❌ Error: " ++ e)]
            | none => [SinkEvent.writeDataRow cfg.write_sheet_name
                        cfg.update_data_col row p.2])
  | .Invalid => []

/-- The spreadsheet-driven loop of `main` over its inputs, threading
`row_reading`; returns the emitted events and the final row counter. -/
def sheetLoop (env : Env) (cfg : Config) : List String → Nat → List SinkEvent × Nat
  | [], row => ([], row)
  | u :: rest, row =>
    let evs := sheetStep env cfg u row
    let r2 := sheetLoop env cfg rest (row + 1)
    (evs ++ r2.1, r2.2)

/-- One iteration of the search-driven loop of `main` (`src/main.rs` lines
118-181) at row index `row` (`search_row_idx`): process the URL; a record
with an empty commit SHA is skipped entirely (`continue`, before the row
write and before the row counter increment); otherwise query the index sink
for a document with the SHA, ingest the enriched record only when the
document is absent and the record non-empty, then write the search row and
advance the row counter. -/
def searchStep (env : Env) (cfg : Config) (esIndex : String) (url : String)
    (row : Nat) : List SinkEvent × Nat :=
  let ud := (handleMain env cfg url).1
  if ud.commit_sha = "" then ([], row)
  else
    let q := SinkEvent.existsQuery esIndex ud.commit_sha
    let p :=
      if !env.docExists esIndex ud.commit_sha then
        if !ud.is_empty then
          let m := ud.add_fields_if_exist env.columns mainFields row
          ([q, SinkEvent.ingest m], m)
        else ([q], ud)
      else ([q], ud)
    (p.1 ++ [SinkEvent.writeSearchRow cfg.search_write_sheet_name
              cfg.search_update_data_col row url p.2], row + 1)

/-- The search-driven loop of `main` over its URLs, threading
`search_row_idx`. -/
def searchLoop (env : Env) (cfg : Config) (esIndex : String) :
    List String → Nat → List SinkEvent × Nat
  | [], row => ([], row)
  | u :: rest, row =>
    let s := searchStep env cfg esIndex u row
    let r2 := searchLoop env cfg esIndex rest s.2
    (s.1 ++ r2.1, r2.2)

/-- Event predicate: is this an ingest call to the index sink? -/
def isIngestEv : SinkEvent → Bool
  | .ingest _ => true
  | _ => false

/-- Event predicate: is this an existence query against the index sink? -/
def isExistsEv : SinkEvent → Bool
  | .existsQuery _ _ => true
  | _ => false

/-- Event predicate: every record carried by the event (ingested or written
as a spreadsheet row) is non-empty. Events that carry no record hold
trivially. -/
def eventRecordNonEmpty : SinkEvent → Bool
  | .ingest r => !r.is_empty
  | .writeDataRow _ _ _ r => !r.is_empty
  | .writeSearchRow _ _ _ _ r => !r.is_empty
  | _ => true

/-- Event predicate: every spreadsheet write of the event targets row
`row`; non-write events hold trivially. -/
def atRow (row : Nat) : SinkEvent → Bool
  | .writeDataRow _ _ r _ => r = row
  | .writeSearchRow _ _ r _ _ => r = row
  | .writeUserRow _ _ r _ _ => r = row
  | .writeErrorCell _ _ r _ => r = row
  | _ => true

theorem ne_empty_of_data_ne_nil (s : String) (h : s.data ≠ []) : s ≠ "" := by
  intro he
  subst he
  exact h rfl

theorem append_data_ne_nil (s t : String) (h : s.data ≠ []) :
    (s ++ t).data ≠ [] := by
  rw [String.data_append]
  intro he
  exact h (List.append_eq_nil.mp he).1

theorem snapshot_url_ne_empty (o r sha : String) :
    ("https://github.com/" ++ o ++ "/" ++ r ++ "/tree/" ++ sha) ≠ "" := by
  apply ne_empty_of_data_ne_nil
  apply append_data_ne_nil
  apply append_data_ne_nil
  apply append_data_ne_nil
  apply append_data_ne_nil
  apply append_data_ne_nil
  decide

theorem getJ_setStr_ne (r : GitHubUpdateData) (v : String)
    (fn fnT : FieldName) (h : fn ≠ fnT) :
    getJ (setStr r fnT v) fn = getJ r fn := by
  cases fnT <;> cases fn <;> simp_all [getJ, setStr]

theorem jEmpty_of_needsUpdate {j : JValue} (h : needsUpdate j = true) :
    jEmpty j = true := by
  cases j <;> simp_all [needsUpdate, jEmpty]

theorem is_empty_iff_forall (r : GitHubUpdateData) :
    r.is_empty = true ↔ ∀ fn, jEmpty (getJ r fn) = true := by
  unfold GitHubUpdateData.is_empty
  rw [List.all_eq_true]
  constructor
  · intro h fn
    exact h fn (by cases fn <;> decide)
  · intro h fn _
    exact h fn

theorem is_empty_of_updateField {cols : List (String × List String)}
    {row : Nat} {r : GitHubUpdateData} {f : String}
    (h : (updateField cols row r f).is_empty = true) : r.is_empty = true := by
  unfold updateField at h
  split at h
  · exact h
  · rename_i fn hf
    split at h
    · rename_i hn
      split at h
      · rename_i values hl
        split at h
        · rename_i v hv
          rw [is_empty_iff_forall] at h ⊢
          intro fn2
          by_cases he : fn2 = fn
          · subst he
            exact jEmpty_of_needsUpdate hn
          · rw [← getJ_setStr_ne r v fn2 fn he]
            exact h fn2
        · exact h
      · exact h
    · exact h

theorem is_empty_of_add_fields {cols : List (String × List String)}
    {row : Nat} {flds : List String} :
    ∀ {r : GitHubUpdateData},
      (r.add_fields_if_exist cols flds row).is_empty = true →
      r.is_empty = true := by
  induction flds with
  | nil => intro r h; exact h
  | cons f rest ih =>
    intro r h
    exact is_empty_of_updateField (ih h)

theorem add_fields_not_empty {cols : List (String × List String)}
    {row : Nat} {flds : List String} {r : GitHubUpdateData}
    (h : r.is_empty = false) :
    (r.add_fields_if_exist cols flds row).is_empty = false := by
  cases he : (r.add_fields_if_exist cols flds row).is_empty with
  | false => rfl
  | true => rw [is_empty_of_add_fields he] at h; exact absurd h (by simp)

theorem commit_sha_of_is_empty {r : GitHubUpdateData}
    (h : r.is_empty = true) : r.commit_sha = "" := by
  rw [is_empty_iff_forall] at h
  have h2 := h .commit_sha
  simpa [getJ, jEmpty] using h2

theorem not_empty_of_commit_sha {r : GitHubUpdateData}
    (h : ¬ r.commit_sha = "") : r.is_empty = false := by
  cases he : r.is_empty with
  | false => rfl
  | true => exact absurd (commit_sha_of_is_empty he) h

theorem handleParsed_not_empty {env : Env} {owner repo : String}
    {kws al : List String} {lim : Nat} {orig : String}
    (h : (handleParsed env owner repo kws al lim orig).2 = none) :
    (handleParsed env owner repo kws al lim orig).1.is_empty = false := by
  cases hp : (process_repo owner repo (env.treeOf owner repo)
      (env.fetchText owner repo) kws al lim).1 with
  | none => simp only [handleParsed, hp] at h; exact absurd h (Option.some_ne_none _)
  | some x =>
    obtain ⟨m, ft, fp⟩ := x
    simp only [handleParsed, hp]
    cases he : (format_for_mapping owner repo
        ((env.commitInfo owner repo).getD ("", env.nowStr, "", "")).1
        ((env.commitInfo owner repo).getD ("", env.nowStr, "", "")).2.1 m
        ((env.commitInfo owner repo).getD ("", env.nowStr, "", "")).2.2.1
        ((env.commitInfo owner repo).getD ("", env.nowStr, "", "")).2.2.2
        (some orig) ft fp).is_empty with
    | false => rfl
    | true =>
      rw [is_empty_iff_forall] at he
      have hs := he .snapshot_url
      simp only [getJ, format_for_mapping, jEmpty, decide_eq_true_eq] at hs
      exact absurd hs (snapshot_url_ne_empty _ _ _)

theorem handle_not_empty {env : Env} {url : String}
    {kws al : List String} {lim : Nat} {orig : String}
    (h : (handle_github_repo_url env url kws al lim orig).2 = none) :
    (handle_github_repo_url env url kws al lim orig).1.is_empty = false := by
  cases hp : parse_github_url url with
  | none => simp only [handle_github_repo_url, hp] at h; exact absurd h (Option.some_ne_none _)
  | some p =>
    obtain ⟨owner, repo⟩ := p
    simp only [handle_github_repo_url, hp] at h ⊢
    exact handleParsed_not_empty h

theorem scanFiles_trace_spec (owner repo : String)
    (fetch : String → Option (String × String)) (kws : List String) :
    ∀ (files : List TreeItem) (acc : RepoMap),
      ((scanFiles owner repo fetch kws files acc).2.isPrefixOf
          (files.map TreeItem.path)) = true
      ∧ (scanFiles owner repo fetch kws files acc).2.length ≤ files.length
      ∧ ((scanFiles owner repo fetch kws files acc).1.isSome = true →
          (scanFiles owner repo fetch kws files acc).2 = files.map TreeItem.path) := by
  intro files
  induction files with
  | nil =>
    intro acc
    exact ⟨rfl, Nat.le_refl _, fun _ => rfl⟩
  | cons item rest ih =>
    intro acc
    cases hf : fetch item.path with
    | none =>
      simp only [scanFiles, hf]
      refine ⟨?_, ?_, ?_⟩
      · simp [List.isPrefixOf]
      · simp
      · intro hs
        simp at hs
    | some pr =>
      obtain ⟨text, respPath⟩ := pr
      simp only [scanFiles, hf]
      obtain ⟨h1, h2, h3⟩ :=
        ih (kws.foldl (accumKeywords owner repo respPath (rustToLower text)) acc)
      refine ⟨?_, ?_, ?_⟩
      · simp only [List.map_cons, List.isPrefixOf, List.cons_append]
        simp [h1]
      · simpa using Nat.succ_le_succ h2
      · intro hs
        simp only [List.map_cons]
        rw [h3 hs]

theorem handleMain_not_empty {env : Env} {cfg : Config} {url : String}
    (h : (handleMain env cfg url).2 = none) :
    (handleMain env cfg url).1.is_empty = false :=
  handle_not_empty h

theorem userRepoStep_nonEmpty (env : Env) (cfg : Config) (owner : String)
    (row : Nat) (rurl : String) :
    (userRepoStep env cfg owner row rurl).all eventRecordNonEmpty = true := by
  by_cases hc : (handleMain env cfg rurl).1.keyword_matches ≠ "0"
      ∨ (handleMain env cfg rurl).1.is_empty = true
  · simp only [userRepoStep, if_pos hc, List.all_nil]
  · push_neg at hc
    have hne : (handleMain env cfg rurl).1.is_empty = false :=
      Bool.not_eq_true _ ▸ hc.2
    have hm : ((handleMain env cfg rurl).1.add_fields_if_exist env.columns
        mainFields row).is_empty = false := add_fields_not_empty hne
    cases herr : (handleMain env cfg rurl).2 with
    | some e => simp [userRepoStep, herr, hc.1, hne, eventRecordNonEmpty, hm]
    | none => simp [userRepoStep, herr, hc.1, hne, eventRecordNonEmpty, hm]

theorem userRepoEvents_nonEmpty (env : Env) (cfg : Config) (owner : String)
    (row : Nat) (repos : List String) :
    (userRepoEvents env cfg owner row repos).all eventRecordNonEmpty = true := by
  induction repos with
  | nil => rfl
  | cons rurl rest ih =>
    simp only [userRepoEvents, List.all_append]
    rw [userRepoStep_nonEmpty, ih]
    rfl

theorem sheetStep_nonEmpty (env : Env) (cfg : Config) (input : String)
    (row : Nat) :
    (sheetStep env cfg input row).all eventRecordNonEmpty = true := by
  cases hcls : classify_github_url input with
  | User owner =>
    simp only [sheetStep, hcls]
    exact userRepoEvents_nonEmpty _ _ _ _ _
  | Repo owner repo_name =>
    simp only [sheetStep, hcls]
    cases herr : (handleMain env cfg
        ("https://github.com/" ++ owner ++ "/" ++ repo_name)).2 with
    | some e =>
      cases hne : (handleMain env cfg
          ("https://github.com/" ++ owner ++ "/" ++ repo_name)).1.is_empty with
      | true => simp [hne, herr, eventRecordNonEmpty]
      | false =>
        have hm := @add_fields_not_empty env.columns row mainFields _ hne
        simp [hne, herr, eventRecordNonEmpty, hm]
    | none =>
      have hne := handleMain_not_empty herr
      have hm := @add_fields_not_empty env.columns row mainFields _ hne
      simp [hne, herr, eventRecordNonEmpty, hm]
  | Invalid => simp only [sheetStep, hcls, List.all_nil]

theorem searchStep_nonEmpty (env : Env) (cfg : Config) (esIdx url : String)
    (row : Nat) :
    (searchStep env cfg esIdx url row).1.all eventRecordNonEmpty = true := by
  by_cases hsha : (handleMain env cfg url).1.commit_sha = ""
  · simp only [searchStep, if_pos hsha, List.all_nil]
  · have hne : (handleMain env cfg url).1.is_empty = false :=
      not_empty_of_commit_sha hsha
    have hm := @add_fields_not_empty env.columns row mainFields _ hne
    simp only [searchStep, if_neg hsha, hne]
    cases hdoc : env.docExists esIdx (handleMain env cfg url).1.commit_sha with
    | true => simp [hdoc, eventRecordNonEmpty, hne, hm]
    | false => simp [hdoc, eventRecordNonEmpty, hne, hm]

theorem userRepoStep_atRow (env : Env) (cfg : Config) (owner : String)
    (row : Nat) (rurl : String) :
    (userRepoStep env cfg owner row rurl).all (atRow row) = true := by
  by_cases hc : (handleMain env cfg rurl).1.keyword_matches ≠ "0"
      ∨ (handleMain env cfg rurl).1.is_empty = true
  · simp only [userRepoStep, if_pos hc, List.all_nil]
  · push_neg at hc
    have hne : (handleMain env cfg rurl).1.is_empty = false :=
      Bool.not_eq_true _ ▸ hc.2
    cases herr : (handleMain env cfg rurl).2 with
    | some e => simp [userRepoStep, herr, hc.1, hne, atRow]
    | none => simp [userRepoStep, herr, hc.1, hne, atRow]

theorem userRepoEvents_atRow (env : Env) (cfg : Config) (owner : String)
    (row : Nat) (repos : List String) :
    (userRepoEvents env cfg owner row repos).all (atRow row) = true := by
  induction repos with
  | nil => rfl
  | cons rurl rest ih =>
    simp only [userRepoEvents, List.all_append]
    rw [userRepoStep_atRow, ih]
    rfl

theorem sheetStep_atRow (env : Env) (cfg : Config) (input : String)
    (row : Nat) :
    (sheetStep env cfg input row).all (atRow row) = true := by
  cases hcls : classify_github_url input with
  | User owner =>
    simp only [sheetStep, hcls]
    exact userRepoEvents_atRow _ _ _ _ _
  | Repo owner repo_name =>
    cases herr : (handleMain env cfg
        ("https://github.com/" ++ owner ++ "/" ++ repo_name)).2 with
    | some e =>
      cases hne : (handleMain env cfg
          ("https://github.com/" ++ owner ++ "/" ++ repo_name)).1.is_empty with
      | true => simp [sheetStep, hcls, hne, herr, atRow]
      | false => simp [sheetStep, hcls, hne, herr, atRow]
    | none =>
      cases hne : (handleMain env cfg
          ("https://github.com/" ++ owner ++ "/" ++ repo_name)).1.is_empty with
      | true => simp [sheetStep, hcls, hne, herr, atRow]
      | false => simp [sheetStep, hcls, hne, herr, atRow]
  | Invalid => simp only [sheetStep, hcls, List.all_nil]

theorem searchStep_atRow (env : Env) (cfg : Config) (esIdx url : String)
    (row : Nat) :
    (searchStep env cfg esIdx url row).1.all (atRow row) = true := by
  by_cases hsha : (handleMain env cfg url).1.commit_sha = ""
  · simp only [searchStep, if_pos hsha, List.all_nil]
  · cases hdoc : env.docExists esIdx (handleMain env cfg url).1.commit_sha with
    | true => simp [searchStep, hsha, hdoc, atRow]
    | false =>
      cases hne : (handleMain env cfg url).1.is_empty with
      | true => simp [searchStep, hsha, hdoc, hne, atRow]
      | false => simp [searchStep, hsha, hdoc, hne, atRow]

theorem userRepoStep_noExists (env : Env) (cfg : Config) (owner : String)
    (row : Nat) (rurl : String) :
    (userRepoStep env cfg owner row rurl).all (fun e => !isExistsEv e) = true := by
  by_cases hc : (handleMain env cfg rurl).1.keyword_matches ≠ "0"
      ∨ (handleMain env cfg rurl).1.is_empty = true
  · simp only [userRepoStep, if_pos hc, List.all_nil]
  · push_neg at hc
    have hne : (handleMain env cfg rurl).1.is_empty = false :=
      Bool.not_eq_true _ ▸ hc.2
    cases herr : (handleMain env cfg rurl).2 with
    | some e => simp [userRepoStep, herr, hc.1, hne, isExistsEv]
    | none => simp [userRepoStep, herr, hc.1, hne, isExistsEv]

theorem userRepoEvents_noExists (env : Env) (cfg : Config) (owner : String)
    (row : Nat) (repos : List String) :
    (userRepoEvents env cfg owner row repos).all (fun e => !isExistsEv e) = true := by
  induction repos with
  | nil => rfl
  | cons rurl rest ih =>
    simp only [userRepoEvents, List.all_append]
    rw [userRepoStep_noExists, ih]
    rfl

theorem sheetStep_noExists (env : Env) (cfg : Config) (input : String)
    (row : Nat) :
    (sheetStep env cfg input row).all (fun e => !isExistsEv e) = true := by
  cases hcls : classify_github_url input with
  | User owner =>
    simp only [sheetStep, hcls]
    exact userRepoEvents_noExists _ _ _ _ _
  | Repo owner repo_name =>
    cases herr : (handleMain env cfg
        ("https://github.com/" ++ owner ++ "/" ++ repo_name)).2 with
    | some e =>
      cases hne : (handleMain env cfg
          ("https://github.com/" ++ owner ++ "/" ++ repo_name)).1.is_empty with
      | true => simp [sheetStep, hcls, hne, herr, isExistsEv]
      | false => simp [sheetStep, hcls, hne, herr, isExistsEv]
    | none =>
      cases hne : (handleMain env cfg
          ("https://github.com/" ++ owner ++ "/" ++ repo_name)).1.is_empty with
      | true => simp [sheetStep, hcls, hne, herr, isExistsEv]
      | false => simp [sheetStep, hcls, hne, herr, isExistsEv]
  | Invalid => simp only [sheetStep, hcls, List.all_nil]

theorem sheetLoop_final_row (env : Env) (cfg : Config) :
    ∀ (inputs : List String) (start : Nat),
      (sheetLoop env cfg inputs start).2 = start + inputs.length := by
  intro inputs
  induction inputs with
  | nil => intro start; simp [sheetLoop]
  | cons u rest ih =>
    intro start
    simp only [sheetLoop, ih, List.length_cons]
    omega

/-- The JSON key of each field of `GitHubUpdateData` (the inverse of
`fieldNameOf`). -/
def fieldStr : FieldName → String
  | .commit_sha => "commit_sha"
  | .email => "email"
  | .keyword_counts => "keyword_counts"
  | .keyword_matches => "keyword_matches"
  | .commit_date => "commit_date"
  | .name => "name"
  | .owner => "owner"
  | .repo_name => "repo_name"
  | .snapshot_url => "snapshot_url"
  | .origin => "origin"
  | .file_types => "file_types"
  | .files_processed => "files_processed"
  | .location => "location"
  | .presentation_link => "presentation_link"
  | .technical_link => "technical_link"
  | .tracks => "tracks"
  | .contact => "contact"
  | .website_link => "website_link"
  | .social_link => "social_link"
  | .wallet => "wallet"

set_option maxHeartbeats 1000000 in
theorem fieldNameOf_eq_some {f : String} {fn : FieldName}
    (h : fieldNameOf f = some fn) : f = fieldStr fn := by
  unfold fieldNameOf at h
  by_cases h0 : f = "commit_sha"
  · rw [if_pos h0] at h; cases h; exact h0
  · rw [if_neg h0] at h
    by_cases h1 : f = "email"
    · rw [if_pos h1] at h; cases h; exact h1
    · rw [if_neg h1] at h
      by_cases h2 : f = "keyword_counts"
      · rw [if_pos h2] at h; cases h; exact h2
      · rw [if_neg h2] at h
        by_cases h3 : f = "keyword_matches"
        · rw [if_pos h3] at h; cases h; exact h3
        · rw [if_neg h3] at h
          by_cases h4 : f = "commit_date"
          · rw [if_pos h4] at h; cases h; exact h4
          · rw [if_neg h4] at h
            by_cases h5 : f = "name"
            · rw [if_pos h5] at h; cases h; exact h5
            · rw [if_neg h5] at h
              by_cases h6 : f = "owner"
              · rw [if_pos h6] at h; cases h; exact h6
              · rw [if_neg h6] at h
                by_cases h7 : f = "repo_name"
                · rw [if_pos h7] at h; cases h; exact h7
                · rw [if_neg h7] at h
                  by_cases h8 : f = "snapshot_url"
                  · rw [if_pos h8] at h; cases h; exact h8
                  · rw [if_neg h8] at h
                    by_cases h9 : f = "origin"
                    · rw [if_pos h9] at h; cases h; exact h9
                    · rw [if_neg h9] at h
                      by_cases h10 : f = "file_types"
                      · rw [if_pos h10] at h; cases h; exact h10
                      · rw [if_neg h10] at h
                        by_cases h11 : f = "files_processed"
                        · rw [if_pos h11] at h; cases h; exact h11
                        · rw [if_neg h11] at h
                          by_cases h12 : f = "location"
                          · rw [if_pos h12] at h; cases h; exact h12
                          · rw [if_neg h12] at h
                            by_cases h13 : f = "presentation_link"
                            · rw [if_pos h13] at h; cases h; exact h13
                            · rw [if_neg h13] at h
                              by_cases h14 : f = "technical_link"
                              · rw [if_pos h14] at h; cases h; exact h14
                              · rw [if_neg h14] at h
                                by_cases h15 : f = "tracks"
                                · rw [if_pos h15] at h; cases h; exact h15
                                · rw [if_neg h15] at h
                                  by_cases h16 : f = "contact"
                                  · rw [if_pos h16] at h; cases h; exact h16
                                  · rw [if_neg h16] at h
                                    by_cases h17 : f = "website_link"
                                    · rw [if_pos h17] at h; cases h; exact h17
                                    · rw [if_neg h17] at h
                                      by_cases h18 : f = "social_link"
                                      · rw [if_pos h18] at h; cases h; exact h18
                                      · rw [if_neg h18] at h
                                        by_cases h19 : f = "wallet"
                                        · rw [if_pos h19] at h; cases h; exact h19
                                        · rw [if_neg h19] at h
                                          cases h

theorem getJ_updateField_ne {cols : List (String × List String)} {row : Nat}
    {r : GitHubUpdateData} {f : String} {fn : FieldName}
    (hne : fieldNameOf f ≠ some fn) :
    getJ (updateField cols row r f) fn = getJ r fn := by
  cases hf : fieldNameOf f with
  | none => simp only [updateField, hf]
  | some fn2 =>
    have h2 : fn ≠ fn2 := fun he => hne (by rw [hf, he])
    simp only [updateField, hf]
    split
    · cases hl : lookupCol cols f with
      | none => simp only [hl]
      | some values =>
        simp only [hl]
        cases hv : values.get? row with
        | none => simp only [hv]
        | some v =>
          simp only [hv]
          exact getJ_setStr_ne r v fn fn2 h2
    · rfl

theorem getJ_updateField_same {cols : List (String × List String)} {row : Nat}
    {r : GitHubUpdateData} {f : String} {fn : FieldName}
    (h : needsUpdate (getJ r fn) = false) :
    getJ (updateField cols row r f) fn = getJ r fn := by
  by_cases hf : fieldNameOf f = some fn
  · simp only [updateField, hf]
    rw [if_neg (by simp [h])]
  · exact getJ_updateField_ne hf

theorem getJ_add_fields_preserve {cols : List (String × List String)}
    {row : Nat} {flds : List String} :
    ∀ {r : GitHubUpdateData} {fn : FieldName},
      needsUpdate (getJ r fn) = false →
      getJ (r.add_fields_if_exist cols flds row) fn = getJ r fn := by
  induction flds with
  | nil => intro r fn _; rfl
  | cons f rest ih =>
    intro r fn h
    have hstep : getJ (updateField cols row r f) fn = getJ r fn :=
      getJ_updateField_same h
    have h2 : needsUpdate (getJ (updateField cols row r f) fn) = false := by
      rw [hstep]; exact h
    have hrec := @ih (updateField cols row r f) fn h2
    calc getJ (r.add_fields_if_exist cols (f :: rest) row) fn
        = getJ ((updateField cols row r f).add_fields_if_exist cols rest row) fn := rfl
      _ = getJ (updateField cols row r f) fn := hrec
      _ = getJ r fn := hstep

theorem getJ_add_fields_unlisted {cols : List (String × List String)}
    {row : Nat} {flds : List String} :
    ∀ {r : GitHubUpdateData} {fn : FieldName},
      flds.contains (fieldStr fn) = false →
      getJ (r.add_fields_if_exist cols flds row) fn = getJ r fn := by
  induction flds with
  | nil => intro r fn _; rfl
  | cons f rest ih =>
    intro r fn h
    rw [List.contains_cons, Bool.or_eq_false_iff] at h
    have hne : fieldNameOf f ≠ some fn := by
      intro hsome
      rw [fieldNameOf_eq_some hsome] at h
      simp at h
    have hstep : getJ (updateField cols row r f) fn = getJ r fn :=
      getJ_updateField_ne hne
    have hrec := @ih (updateField cols row r f) fn h.2
    calc getJ (r.add_fields_if_exist cols (f :: rest) row) fn
        = getJ ((updateField cols row r f).add_fields_if_exist cols rest row) fn := rfl
      _ = getJ (updateField cols row r f) fn := hrec
      _ = getJ r fn := hstep

/-- A concrete oracle environment for closed evaluations: every repository
resolves to commit `deadbeef`, every tree listing is empty, no file fetch
succeeds, the index sink reports every document as already present, users
have no repositories, and the spreadsheet columns are empty. -/
def envPresent : Env :=
  { commitInfo := fun _ _ => some ("deadbeef", "2024-05-01T00:00:00Z", "dev@example.com", "Dev")
    treeOf := fun _ _ => some []
    fetchText := fun _ _ _ => none
    docExists := fun _ _ => true
    userRepos := fun _ => []
    columns := []
    nowStr := "2025-01-01T00:00:00Z" }

/-- Like `envPresent` but commit provenance fails, so `handle_github_repo_url`
synthesizes a record with an empty commit SHA. -/
def envNoCommit : Env :=
  { envPresent with commitInfo := fun _ _ => none }

/-- Like `envPresent` but the enumerated user owns two repositories. -/
def envUserTwo : Env :=
  { envPresent with
      userRepos := fun _ => ["https://github.com/bob/x", "https://github.com/bob/y"] }

/-- Does the event ingest a record whose commit SHA is `sha`? -/
def ingestShaIs (sha : String) : SinkEvent → Bool
  | .ingest r => r.commit_sha = sha
  | _ => false

/-- Event predicate: a serialized-record spreadsheet row write. -/
def isDataRowEv : SinkEvent → Bool
  | .writeDataRow _ _ _ _ => true
  | _ => false

/-- The row index of a serialized-record row write (0 otherwise). -/
def dataRowIdx : SinkEvent → Nat
  | .writeDataRow _ _ r _ => r
  | _ => 0

/-- A two-file tree listing: one Rust source file and one excluded README. -/
def treeEx : List TreeItem :=
  [⟨"src/a.rs", "blob"⟩, ⟨"README.md", "blob"⟩]

/-- A content oracle for `treeEx`: the Rust file contains the keyword
`delegate_account` twice. -/
def fetchEx : String → Option (String × String) :=
  fun p =>
    if p = "src/a.rs" then
      some ("use delegate_account; delegate_account()", "src/a.rs")
    else none

/-- C1 counterexample: in one spreadsheet-loop run over two repository URLs
whose records share the non-empty commit SHA `deadbeef`, and with the index
sink reporting the document as already existing, the pipeline makes two
ingest calls and zero existence queries — the claimed pre-ingest
existence check and at-most-one-ingest guarantee do not hold on the
spreadsheet repository path. -/
theorem c1_dedup_counterexample :
    (((sheetLoop envPresent mainConfig
        ["https://github.com/a/r1", "https://github.com/a/r2"] 2).1.filter
          isIngestEv).length = 2)
    ∧ ((sheetLoop envPresent mainConfig
        ["https://github.com/a/r1", "https://github.com/a/r2"] 2).1.filter
          isExistsEv = [])
    ∧ (((sheetLoop envPresent mainConfig
        ["https://github.com/a/r1", "https://github.com/a/r2"] 2).1.filter
          isIngestEv).all (ingestShaIs "deadbeef") = true)
    ∧ envPresent.docExists "idx" "deadbeef" = true := by
  refine ⟨by decide, by decide, by decide, rfl⟩

/-- C1 (amended): only the search-driven path performs the idempotency
check. There, at most one ingest happens per record — none when the index
sink already has a document with the SHA of the record — and the existence query
is the first event, before any ingest. The spreadsheet-driven loop (both
its user-enumeration and repository branches) never queries the index sink
at all, and ingests every processed non-empty record unconditionally. -/
theorem c1_dedup_only_on_search_path (env : Env) (cfg : Config)
    (esIdx url input : String) (row : Nat) :
    ((searchStep env cfg esIdx url row).1.filter isIngestEv).length
        ≤ (if env.docExists esIdx (handleMain env cfg url).1.commit_sha
            then 0 else 1)
    ∧ ((searchStep env cfg esIdx url row).1.head?
        = if (handleMain env cfg url).1.commit_sha = "" then none
          else some (.existsQuery esIdx (handleMain env cfg url).1.commit_sha))
    ∧ (sheetStep env cfg input row).all (fun e => !isExistsEv e) = true := by
  refine ⟨?_, ?_, sheetStep_noExists env cfg input row⟩
  · by_cases hsha : (handleMain env cfg url).1.commit_sha = ""
    · simp [searchStep, hsha]
    · cases hdoc : env.docExists esIdx (handleMain env cfg url).1.commit_sha with
      | true => simp [searchStep, hsha, hdoc, isIngestEv]
      | false =>
        cases hne : (handleMain env cfg url).1.is_empty with
        | true => simp [searchStep, hsha, hdoc, hne, isIngestEv]
        | false => simp [searchStep, hsha, hdoc, hne, isIngestEv]
  · by_cases hsha : (handleMain env cfg url).1.commit_sha = ""
    · simp [searchStep, hsha]
    · cases hdoc : env.docExists esIdx (handleMain env cfg url).1.commit_sha with
      | true => simp [searchStep, hsha, hdoc]
      | false =>
        cases hne : (handleMain env cfg url).1.is_empty with
        | true => simp [searchStep, hsha, hdoc, hne]
        | false => simp [searchStep, hsha, hdoc, hne]

/-- C2 counterexample: an input that classifies as `Invalid` consumes a row
index but nothing at all is written to its row — no error marker; in the
search loop, a record whose commit SHA is empty is skipped entirely — its
row is not written and its row index is not consumed; and in the
user-enumeration branch two repository rows are written at the same row
index, so row indices of written rows are not strictly increasing. -/
theorem c2_row_counterexample :
    classify_github_url "not a url" = .Invalid
    ∧ sheetStep envPresent mainConfig "not a url" 7 = []
    ∧ (handleMain envNoCommit mainConfig "https://github.com/a/b").1.commit_sha = ""
    ∧ searchStep envNoCommit mainConfig "idx" "https://github.com/a/b" 5 = ([], 5)
    ∧ ((sheetStep envUserTwo mainConfig "https://github.com/bob" 4).filter
        isDataRowEv).map dataRowIdx = [4, 4] := by
  refine ⟨by decide, by decide, by decide, by decide, by decide⟩

/-- C2 (amended): in the spreadsheet-driven loop every input consumes
exactly one row index in iteration order (the final row counter is the
start plus the number of inputs), and every spreadsheet write performed
while processing an input at row `r` targets exactly row `r` (several
writes of one user-enumeration input share that row). An `Invalid` input
consumes its row index but produces no write at all — no error marker. In
the search loop a record with an empty commit SHA is skipped entirely:
nothing is written and no row index is consumed; otherwise all writes
target the current row index. -/
theorem c2_rows_in_iteration_order (env : Env) (cfg : Config)
    (esIdx input url : String) (inputs : List String) (start row : Nat) :
    (sheetLoop env cfg inputs start).2 = start + inputs.length
    ∧ (sheetStep env cfg input row).all (atRow row) = true
    ∧ (searchStep env cfg esIdx url row).1.all (atRow row) = true
    ∧ (classify_github_url input = .Invalid → sheetStep env cfg input row = [])
    ∧ ((handleMain env cfg url).1.commit_sha = "" →
        searchStep env cfg esIdx url row = ([], row)) := by
  refine ⟨sheetLoop_final_row env cfg inputs start, sheetStep_atRow env cfg input row,
    searchStep_atRow env cfg esIdx url row, ?_, ?_⟩
  · intro h
    simp [sheetStep, h]
  · intro h
    simp [searchStep, h]

/-- Witness for the two conditional parts of `c2_rows_in_iteration_order`,
at a concrete invalid input and a concrete provenance-less repository. -/
theorem c2_rows_in_iteration_order_witness :
    sheetStep envPresent mainConfig "not a url" 9 = []
    ∧ searchStep envNoCommit mainConfig "idx" "https://github.com/a/b" 6 = ([], 6) :=
  ⟨(c2_rows_in_iteration_order envPresent mainConfig "idx" "not a url" "u" [] 0 9).2.2.2.1
      (by decide),
   (c2_rows_in_iteration_order envNoCommit mainConfig "idx" "u"
      "https://github.com/a/b" [] 0 6).2.2.2.2 (by decide)⟩

/-- C3 counterexample: a response whose `X-RateLimit-Remaining` header fails
to parse (`"NaN"`) but whose `X-RateLimit-Reset` parses to a future
timestamp makes the rate limiter suspend for 100 seconds — the unparsable
`Remaining` is treated as 0 remaining, not as "no limiting required". -/
theorem c3_rate_limit_counterexample :
    parse_i32 "NaN" = none
    ∧ check_api_request_limit_wait (some "NaN") (some "100") 0 = 100 := by
  refine ⟨by decide, by decide⟩

/-- C3 (amended): a missing `X-RateLimit-Remaining` header causes no
suspension; a missing `X-RateLimit-Reset` header causes no suspension; an
unparsable `Reset` header causes no suspension for any nonnegative clock
(it is read as timestamp 0, which is never in the future). An unparsable
`Remaining` header, however, is parsed with `unwrap_or(0)` and therefore
behaves like an exhausted quota: it does suspend whenever `Reset` parses to
a future timestamp. -/
theorem c3_rate_limit_headers (remaining reset : Option String) (s : String)
    (now : Int) :
    check_api_request_limit_wait none reset now = 0
    ∧ check_api_request_limit_wait remaining none now = 0
    ∧ (parse_i64 s = none → 0 ≤ now →
        check_api_request_limit_wait remaining (some s) now = 0) := by
  refine ⟨rfl, ?_, ?_⟩
  · cases remaining with
    | none => rfl
    | some r =>
      simp only [check_api_request_limit_wait]
      split
      · rfl
      · rfl
  · intro hp hnow
    cases remaining with
    | none => rfl
    | some r =>
      simp only [check_api_request_limit_wait, hp, Option.getD_none]
      split
      · split
        · rename_i hw
          omega
        · rfl
      · rfl

/-- Witness for the conditional part of `c3_rate_limit_headers`: an
unparsable reset value with a nonnegative clock yields no suspension. -/
theorem c3_rate_limit_headers_witness :
    parse_i64 "soon" = none ∧ (0 : Int) ≤ 5
    ∧ check_api_request_limit_wait (some "0") (some "soon") 5 = 0 :=
  ⟨by decide, by decide,
   (c3_rate_limit_headers (some "0") none "soon" 5).2.2 (by decide) (by decide)⟩

/-- C4: a record satisfying `is_empty` never reaches a sink. Every event of
either loop that carries a record — an ingest to the index sink, a
serialized-record spreadsheet row, or the search-loop record row — carries
a non-empty record, for every oracle environment, configuration, input and
row index. (Error-cell and user-marker writes carry no record.) -/
theorem c4_empty_records_never_reach_sinks (env : Env) (cfg : Config)
    (esIdx input url : String) (row : Nat) :
    (sheetStep env cfg input row).all eventRecordNonEmpty = true
    ∧ (searchStep env cfg esIdx url row).1.all eventRecordNonEmpty = true :=
  ⟨sheetStep_nonEmpty env cfg input row, searchStep_nonEmpty env cfg esIdx url row⟩

/-- C5: the URL classifier returns `Repo` with the two path segments
preserved exactly (case included) when the parsed path has exactly two
segments, `User` of the single segment when it has exactly one, and
`Invalid` when the string fails to parse as a URL, when the URL has no
segments (cannot-be-a-base), or when there are more than two segments —
checked against the parse result and on concrete URLs of every kind. -/
theorem c5_url_classifier (s : String) :
    (match rust_url_parse s with
     | .failed => classify_github_url s = .Invalid
     | .noSegments => classify_github_url s = .Invalid
     | .segments segs =>
       match segs with
       | [a] => classify_github_url s = .User a
       | [a, b] => classify_github_url s = .Repo a b
       | _ => classify_github_url s = .Invalid)
    ∧ classify_github_url "https://github.com/Acme/WidGets" = .Repo "Acme" "WidGets"
    ∧ classify_github_url "https://github.com/acme" = .User "acme"
    ∧ classify_github_url "https://github.com/a/b/c" = .Invalid
    ∧ classify_github_url "mailto:dev@example.com" = .Invalid
    ∧ classify_github_url "not a url" = .Invalid := by
  refine ⟨?_, by decide, by decide, by decide, by decide, by decide⟩
  unfold classify_github_url
  cases rust_url_parse s with
  | failed => rfl
  | noSegments => rfl
  | segments segs =>
    cases segs with
    | nil => rfl
    | cons a t =>
      cases t with
      | nil => rfl
      | cons b t2 =>
        cases t2 with
        | nil => rfl
        | cons c t3 => rfl

/-- C6 counterexample: the scanner lower-cases the file text but matches the
keyword verbatim, so counting is not case-insensitive for arbitrary keyword
casing: scanning `"FooFooFoo"` for the keyword `"Foo"` yields 0, while the
case-insensitive non-overlapping count is 3. -/
theorem c6_case_counterexample :
    keywordCount "FooFooFoo" "Foo" = 0
    ∧ countCaseInsensitive "FooFooFoo" "Foo" = 3 := by
  refine ⟨by decide, by decide⟩

/-- C6 (amended): the per-file count is the number of non-overlapping
occurrences of the keyword, written verbatim, in the lower-cased text. For
a keyword that is already lower-case this coincides with case-insensitive
counting — in particular `"FooFooFoo"` scanned for `"foo"` yields 3, and
all eight configured keywords are lower-case, so the fixed vocabulary is
matched case-insensitively. -/
theorem c6_keyword_count_lowercase (text kw : String)
    (h : rustToLower kw = kw) :
    keywordCount text kw = countCaseInsensitive text kw
    ∧ keywordCount "FooFooFoo" "foo" = 3
    ∧ (KEYWORDS.all (fun k => rustToLower k == k)) = true := by
  refine ⟨?_, by decide, by decide⟩
  unfold keywordCount countCaseInsensitive
  rw [h]

/-- Witness for `c6_keyword_count_lowercase` at the example given by the spec. -/
theorem c6_keyword_count_lowercase_witness :
    rustToLower "foo" = "foo"
    ∧ keywordCount "FooFooFoo" "foo" = countCaseInsensitive "FooFooFoo" "foo" :=
  ⟨by decide, (c6_keyword_count_lowercase "FooFooFoo" "foo" (by decide)).1⟩

/-- C7 counterexample: `format_for_mapping` sets `keyword_matches` to the
size of the serialized keyword map, so a key with count 0 does contribute:
the one-entry map `{"a": {count: 0, files: []}}` yields `keyword_matches`
`"1"` although it has no key with a nonzero count. -/
theorem c7_keyword_matches_counterexample :
    (format_for_mapping "o" "r" "sha1" "2024-05-01" [("a", ⟨0, []⟩)] "e" "n"
      (some "x") "ft" 0).keyword_matches = "1"
    ∧ nonzeroKeyCount [("a", ⟨0, []⟩)] = 0 := by
  refine ⟨by decide, by decide⟩

/-- C7 (amended): `keyword_matches` equals the number of distinct keys of
the keyword map, whatever their counts — not the sum of occurrence counts,
and with zero-count keys included. For a map whose entries all have nonzero
counts (as every map the scanner produces: entries are only created for a
file when the count of the keyword in that file is positive) this equals the
number of distinct keys with nonzero count, e.g. `{"a":5, "b":1}` gives
`"2"`. -/
theorem c7_keyword_matches_distinct_keys (owner repo sha date email nm ft : String)
    (origin : Option String) (fp : Nat) (m : RepoMap)
    (h : ∀ p ∈ m, p.2.count ≠ 0) :
    (format_for_mapping owner repo sha date m email nm origin ft fp).keyword_matches
        = toString (distinctKeyCount m)
    ∧ (format_for_mapping owner repo sha date m email nm origin ft fp).keyword_matches
        = toString (nonzeroKeyCount m)
    ∧ (format_for_mapping "o" "r" "s" "d" [("a", ⟨5, []⟩), ("b", ⟨1, []⟩)] "e" "n"
        none "ft" 0).keyword_matches = "2" := by
  refine ⟨rfl, ?_, by decide⟩
  have hf : m.filter (fun p => p.2.count ≠ 0) = m :=
    List.filter_eq_self.mpr (fun a ha => by simpa using h a ha)
  simp only [nonzeroKeyCount, hf]
  rfl

/-- Witness for `c7_keyword_matches_distinct_keys` on a concrete
all-positive map. -/
theorem c7_keyword_matches_distinct_keys_witness :
    (∀ p ∈ ([("a", ⟨2, ["u"]⟩)] : RepoMap), p.2.count ≠ 0)
    ∧ (format_for_mapping "o" "r" "s" "d" [("a", ⟨2, ["u"]⟩)] "e" "n" none "ft"
        1).keyword_matches = toString (nonzeroKeyCount [("a", ⟨2, ["u"]⟩)]) :=
  ⟨by decide,
   (c7_keyword_matches_distinct_keys "o" "r" "s" "d" "e" "n" "ft" none 1
      [("a", ⟨2, ["u"]⟩)] (by decide)).2.1⟩

/-- A record whose `location` optional is set — to the empty string. -/
def recLocEmpty : GitHubUpdateData :=
  { defaultUpdateData with location := some "" }

/-- C8 counterexample: a set optional is not always preserved. A record
with `location = Some("")` serializes that field to the empty string, so
the enrichment pass treats it as needing update and overwrites it with the
external column value, although the optional was set. -/
theorem c8_enrichment_counterexample :
    recLocEmpty.location = some ""
    ∧ (recLocEmpty.add_fields_if_exist [("location", ["Lisbon"])]
        ["location"] 0).location = some "Lisbon" := by
  refine ⟨rfl, by decide⟩

/-- C8 (amended): the enrichment pass never changes a field whose
serialized value is not an empty string and not null — that is, a string
field holding a non-empty string, an optional holding a non-empty string,
or the keyword-map object; an optional set to the empty string serializes
to an empty string and may be backfilled. A field whose name is not in the
caller-supplied field list is never changed at all. -/
theorem c8_enrichment_never_overwrites (r : GitHubUpdateData)
    (cols : List (String × List String)) (flds : List String) (row : Nat)
    (fn : FieldName) :
    (needsUpdate (getJ r fn) = false →
      getJ (r.add_fields_if_exist cols flds row) fn = getJ r fn)
    ∧ (flds.contains (fieldStr fn) = false →
      getJ (r.add_fields_if_exist cols flds row) fn = getJ r fn) :=
  ⟨getJ_add_fields_preserve, getJ_add_fields_unlisted⟩

/-- A record whose `owner` string is non-empty. -/
def recOwnerX : GitHubUpdateData :=
  { defaultUpdateData with owner := "x" }

/-- Witness for `c8_enrichment_never_overwrites`: a non-empty `owner` field
survives enrichment even though the `owner` column holds a different value
at the row, and the unlisted `email` field is untouched. -/
theorem c8_enrichment_never_overwrites_witness :
    getJ (recOwnerX.add_fields_if_exist [("owner", ["y"]), ("email", ["e"])]
        ["owner"] 0) .owner = .str "x"
    ∧ getJ (recOwnerX.add_fields_if_exist [("owner", ["y"]), ("email", ["e"])]
        ["owner"] 0) .email = getJ recOwnerX .email :=
  ⟨((c8_enrichment_never_overwrites recOwnerX [("owner", ["y"]), ("email", ["e"])]
      ["owner"] 0 .owner).1 (by decide)).trans (by decide),
   (c8_enrichment_never_overwrites recOwnerX [("owner", ["y"]), ("email", ["e"])]
      ["owner"] 0 .email).2 (by decide)⟩

/-- C9: the scanner content-fetches at most `limit` files — the cap is
applied by truncating the extension-filtered blob list, in tree order,
before any fetching or keyword scanning, so the fetch trace is a prefix of
the capped filtered list — and whenever the scan returns a result its
`files_processed` equals the number of files content-fetched. Checked
additionally on the concrete two-file tree `treeEx`, where the excluded
`README.md` is filtered out, one file is fetched, and `files_processed`
is 1. -/
theorem c9_scan_cap_and_count (owner repo : String)
    (tree : Option (List TreeItem)) (fetch : String → Option (String × String))
    (kws allowed : List String) (limit : Nat) :
    (process_repo owner repo tree fetch kws allowed limit).2.length ≤ limit
    ∧ (match (process_repo owner repo tree fetch kws allowed limit).1 with
       | some x => x.2.2 = (process_repo owner repo tree fetch kws allowed limit).2.length
       | none => True)
    ∧ (match tree with
       | some t =>
         ((process_repo owner repo tree fetch kws allowed limit).2.isPrefixOf
           ((filteredFiles t allowed limit).map TreeItem.path)) = true
       | none => (process_repo owner repo tree fetch kws allowed limit).2 = [])
    ∧ (process_repo "acme" "widgets" (some treeEx) fetchEx KEYWORDS
        ALLOWED_EXTENSIONS 100).1
      = some ([("delegate_account",
          ⟨2, ["https://github.com/acme/widgets/blob/HEAD/src/a.rs"]⟩)],
          ".toml, .json, .rs, .ts", 1)
    ∧ (process_repo "acme" "widgets" (some treeEx) fetchEx KEYWORDS
        ALLOWED_EXTENSIONS 100).2 = ["src/a.rs"] := by
  refine ⟨?_, ?_, ?_, by decide, by decide⟩
  · cases tree with
    | none => simp [process_repo]
    | some t =>
      obtain ⟨h1, h2, h3⟩ :=
        scanFiles_trace_spec owner repo fetch kws (filteredFiles t allowed limit) []
      have htr : (process_repo owner repo (some t) fetch kws allowed limit).2
          = (scanFiles owner repo fetch kws (filteredFiles t allowed limit) []).2 := by
        simp only [process_repo]
        cases (scanFiles owner repo fetch kws (filteredFiles t allowed limit) []).1 <;> rfl
      rw [htr]
      refine h2.trans ?_
      simp only [filteredFiles, List.length_take]
      exact Nat.min_le_left _ _
  · cases tree with
    | none => simp [process_repo]
    | some t =>
      obtain ⟨h1, h2, h3⟩ :=
        scanFiles_trace_spec owner repo fetch kws (filteredFiles t allowed limit) []
      cases hs : (scanFiles owner repo fetch kws (filteredFiles t allowed limit) []).1 with
      | none => simp only [process_repo, hs]
      | some m =>
        simp only [process_repo, hs]
        rw [h3 (by rw [hs]; rfl)]
        simp
  · cases tree with
    | none => simp [process_repo]
    | some t =>
      obtain ⟨h1, h2, h3⟩ :=
        scanFiles_trace_spec owner repo fetch kws (filteredFiles t allowed limit) []
      have htr : (process_repo owner repo (some t) fetch kws allowed limit).2
          = (scanFiles owner repo fetch kws (filteredFiles t allowed limit) []).2 := by
        simp only [process_repo]
        cases (scanFiles owner repo fetch kws (filteredFiles t allowed limit) []).1 <;> rfl
      rw [htr]
      exact h1

/-- C10: for a URL whose parsed path has two or more segments,
`parse_github_url` returns exactly the first two segments, ignoring the
rest; `get_github_repo` therefore maps a deep file permalink to its parent
repository URL; `handle_github_repo_url` takes the parse-success branch and
processes the URL as that owner/repository pair; and when there are more
than two segments, `classify_github_url` classifies the same URL as
`Invalid`. -/
theorem c10_deep_urls_first_two_segments (s a b : String) (rest : List String)
    (env : Env) (kws al : List String) (lim : Nat) (orig : String)
    (h : rust_url_parse s = .segments (a :: b :: rest)) :
    parse_github_url s = some (a, b)
    ∧ get_github_repo s = some ("https://github.com/" ++ a ++ "/" ++ b)
    ∧ handle_github_repo_url env s kws al lim orig
        = handleParsed env a b kws al lim orig
    ∧ (rest ≠ [] → classify_github_url s = .Invalid) := by
  have hp : parse_github_url s = some (a, b) := by
    simp [parse_github_url, h]
  refine ⟨hp, ?_, ?_, ?_⟩
  · simp [get_github_repo, hp]
  · simp [handle_github_repo_url, hp]
  · intro hr
    cases rest with
    | nil => exact absurd rfl hr
    | cons c t => simp [classify_github_url, h]

/-- Witness for `c10_deep_urls_first_two_segments` at a concrete `/blob/`
code-search permalink with six path segments. -/
theorem c10_deep_urls_first_two_segments_witness :
    rust_url_parse "https://github.com/acme/widgets/blob/HEAD/src/a.rs"
      = .segments ["acme", "widgets", "blob", "HEAD", "src", "a.rs"]
    ∧ parse_github_url "https://github.com/acme/widgets/blob/HEAD/src/a.rs"
      = some ("acme", "widgets")
    ∧ get_github_repo "https://github.com/acme/widgets/blob/HEAD/src/a.rs"
      = some "https://github.com/acme/widgets"
    ∧ classify_github_url "https://github.com/acme/widgets/blob/HEAD/src/a.rs"
      = .Invalid := by
  have h := c10_deep_urls_first_two_segments
    "https://github.com/acme/widgets/blob/HEAD/src/a.rs" "acme" "widgets"
    ["blob", "HEAD", "src", "a.rs"] envPresent KEYWORDS ALLOWED_EXTENSIONS 100
    "Cypherpunk" (by decide)
  exact ⟨by decide, h.1, h.2.1.trans (by decide), h.2.2.2 (by decide)⟩
